import Mathlib

/-!
Verification of the gimli-based symbolizer core of backtrace-rs:
address translation (`Cache::avma_to_svma`), the fixed-capacity LRU
mapping cache (`Cache::mapping_for_lib`, `clear_symbol_cache`), the
tiered fallback resolution chain (`resolve` plus the `DladdrFallback`
drop handler), the per-format symbol-table searches
(`Object::search_symtab` for ELF, PE/COFF and Mach-O), and the global
serialization lock (`lock::lock`, `trace`).

Machine addresses and indices are modelled as `Nat`; fallible Rust
operations return `Option`; the process-global mutable cache is passed
as explicit state. External collaborators (the `addr2line` DWARF query,
the object/string tables, the OS loader, `libc::dladdr`, the platform
unwinder) are modelled by their observable query behaviour, packaged in
an explicit environment, exactly at the boundary the source consumes
them.
-/

namespace BacktraceRs

/-- `MAPPINGS_CACHE_SIZE` in gimli.rs: fixed capacity of the mapping cache. -/
def MAPPINGS_CACHE_SIZE : Nat := 4

/-- `LibrarySegment`: one loaded segment of a library, as reported by the
OS loader. `len` is the in-memory size, `stated_virtual_memory_address`
the address stated in the object file (SVMA), before relocation. -/
structure LibrarySegment where
  len : Nat
  stated_virtual_memory_address : Nat
deriving DecidableEq

/-- `Library`: path, loaded segments, and the load bias (the relocation
offset the loader applied, AVMA minus SVMA). -/
structure Library where
  name : String
  segments : List LibrarySegment
  bias : Nat
deriving DecidableEq

/-- The segment-containment test inside `Cache::avma_to_svma`: with the
library loaded at offset `bias`, does the AVMA `addr` fall in
`[svma + bias, svma + bias + len)`? -/
def LibrarySegment.contains (s : LibrarySegment) (bias addr : Nat) : Bool :=
  let svma := s.stated_virtual_memory_address
  let lo := svma + bias
  let hi := svma + bias + s.len
  decide (lo ≤ addr) && decide (addr < hi)

/-- `lib.segments.iter().any(|s| ...)` in `Cache::avma_to_svma`. -/
def Library.containsAddr (lib : Library) (addr : Nat) : Bool :=
  lib.segments.any fun s => s.contains lib.bias addr

/-- A source location from DWARF line info (`addr2line::Location`). -/
structure Location where
  file : Option String
  line : Option Nat
deriving DecidableEq

/-- One frame yielded by the `addr2line` inline-frame iterator inside
`resolve`: optional function name, optional source location. -/
structure DwarfFrame where
  name : Option String
  location : Option Location
deriving DecidableEq

/-- The parsed per-module context (`Context` in gimli.rs), modelled by
the observable behaviour of its two queries. `findFrames a` models
`cx.dwarf.find_frames(a)`: `none` is an `Err` (nothing emitted),
`some fs` the inline frames the iterator yields, innermost first.
`searchSymtab a` models `cx.object.search_symtab(a)`. The DWARF and
object-parsing internals live in the external `addr2line`/`object`
crates and enter the model only through these queries. -/
structure Context where
  findFrames : Nat → Option (List DwarfFrame)
  searchSymtab : Nat → Option String

/-- `Mapping`: the retained mmap is behaviourally irrelevant, so only the
parsed context is kept. -/
structure Mapping where
  cx : Context

/-- `Cache` in gimli.rs: the loader-reported library list plus the LRU
list of `(library index, Mapping)` pairs (index 0 most recently used). -/
structure Cache where
  libraries : List Library
  mappings : List (Nat × Mapping)

/-- The ambient process/OS facts that gimli.rs consumes:
`native_libraries()` (the loader enumeration), `Mapping::new` (open +
mmap + object/DWARF parse, `none` for any I/O or parse failure),
`env::current_exe().ok()`, and whether `libc::dladdr` reports a symbol
for a given address. -/
structure Env where
  native_libraries : List Library
  newMapping : String → Option Mapping
  currentExe : Option String
  dladdrHit : Nat → Bool

/-- `Cache::new`: empty mapping list, libraries from the loader. -/
def Cache.new (env : Env) : Cache :=
  { libraries := env.native_libraries, mappings := [] }

/-- `Cache::avma_to_svma` (the Unix path; the `cfg!(windows)` branch is a
separate degraded identity mode that performs no translation): find the
first library one of whose segments contains `addr`, and subtract its
bias. The subtraction cannot underflow on the hit path because
containment gives `svma + bias ≤ addr`. -/
def Cache.avma_to_svma (c : Cache) (addr : Nat) : Option (Nat × Nat) :=
  (c.libraries.enum.filterMap fun p =>
    if p.2.containsAddr addr then some (p.1, addr - p.2.bias) else none).head?

/-- `Iterator::position`: index of the first element satisfying `p`. -/
def position (p : α → Bool) : List α → Option Nat
  | [] => none
  | a :: l => if p a then some 0 else (position p l).map (· + 1)

/-- The path the miss path of `Cache::mapping_for_lib` resolves: the
recorded library name, or the current executable for an out-of-range
(sentinel) index. -/
def Cache.libPath (env : Env) (c : Cache) (lib : Nat) : Option String :=
  match c.libraries.get? lib with
  | some l => some l.name
  | none => env.currentExe

/-- `Cache::mapping_for_lib`. Hit: the entry is moved to the front.
Miss: resolve a path and build a mapping (`none` on failure, returning
with the cache untouched), evict the back entry when the cache is at
`MAPPINGS_CACHE_SIZE`, insert the new entry at the front. Returns the
context stored at index 0. -/
def Cache.mapping_for_lib (env : Env) (c : Cache) (lib : Nat) :
    Option Context × Cache :=
  match position (fun p => p.1 == lib) c.mappings with
  | some idx =>
    match c.mappings.get? idx with
    | some entry =>
      let ms := if idx == 0 then c.mappings else entry :: c.mappings.eraseIdx idx
      (ms.head?.map fun e => e.2.cx, { c with mappings := ms })
    | none => (none, c)
  | none =>
    match c.libPath env lib with
    | none => (none, c)
    | some path =>
      match env.newMapping path with
      | none => (none, c)
      | some m =>
        let ms := if c.mappings.length == MAPPINGS_CACHE_SIZE
                  then c.mappings.dropLast else c.mappings
        let ms := (lib, m) :: ms
        (ms.head?.map fun e => e.2.cx, { c with mappings := ms })

/-- `Cache::with_global`: the lazily initialized process-wide cache
(`MAPPINGS_CACHE.get_or_insert_with(Cache::new)`), threaded explicitly.
`none` is the not-yet-initialized state. -/
def withGlobal (env : Env) (s : Option Cache) (f : Cache → α × Cache) :
    α × Option Cache :=
  let c := s.getD (Cache.new env)
  let r := f c
  (r.1, some r.2)

/-- `clear_symbol_cache`: `cache.mappings.clear()` under `with_global`. -/
def clear_symbol_cache (env : Env) (s : Option Cache) : Option Cache :=
  (withGlobal env s fun c => ((), { c with mappings := [] })).2

/-- The `Symbol` variants `resolve` can emit through its callback. -/
inductive Sym where
  | frame (addr : Nat) (location : Option Location) (name : Option String)
  | symtab (addr : Nat) (name : String)
  | dladdr (addr : Nat)
deriving DecidableEq

def Sym.isFrame : Sym → Bool
  | .frame .. => true
  | _ => false

def Sym.isSymtab : Sym → Bool
  | .symtab .. => true
  | _ => false

def Sym.isDladdr : Sym → Bool
  | .dladdr .. => true
  | _ => false

/-- The body of the `with_global` closure in `resolve`: translate the
address, fetch or build the context, query DWARF, and fall back to the
symbol table only when the DWARF tier called the callback zero times.
Result: the symbols passed to the callback, in order, and the updated
cache. -/
def resolveWith (env : Env) (c : Cache) (addr : Nat) : List Sym × Cache :=
  match c.avma_to_svma addr with
  | none => ([], c)
  | some (lib, svma) =>
    match Cache.mapping_for_lib env c lib with
    | (none, c1) => ([], c1)
    | (some cx, c1) =>
      let frames :=
        match cx.findFrames svma with
        | none => []
        | some fs => fs.map fun f => Sym.frame svma f.location f.name
      if frames.isEmpty then
        match cx.searchSymtab svma with
        | some n => ([Sym.symtab svma n], c1)
        | none => ([], c1)
      else (frames, c1)

/-- `resolve`: run the tiered lookup under the global cache; afterwards
the `DladdrFallback` drop handler queries `dladdr` with the original
(untranslated) address exactly when no earlier tier called the
callback. -/
def resolve (env : Env) (s : Option Cache) (addr : Nat) :
    List Sym × Option Cache :=
  let r := withGlobal env s fun c => resolveWith env c addr
  if r.1.isEmpty then
    ((if env.dladdrHit addr then [Sym.dladdr addr] else []), r.2)
  else r

/-- Resolve a sequence of library indices in order against the cache,
keeping only the cache state (the repeated-use pattern behind the LRU
property). -/
def runLibs (env : Env) (c : Cache) (libs : List Nat) : Cache :=
  libs.foldl (fun c l => (Cache.mapping_for_lib env c l).2) c

/-- Per-thread view of the global serialization lock: the thread-local
`LOCK_HELD` flag in the `lock` module of lib.rs. -/
structure LockState where
  lockHeld : Bool
deriving DecidableEq

/-- `lock::lock()`: `none` when this thread already holds the lock
(leaving the flag untouched), otherwise a guard, setting the flag. The
inner mutex acquisition always succeeds for the modelled single
thread. -/
def lock (s : LockState) : Option Unit × LockState :=
  if s.lockHeld then (none, s) else (some (), { lockHeld := true })

/-- `trace_unsynchronized`: walk the frames the platform unwinder yields
(modelled as the list of instruction pointers), invoking the callback on
each until it returns `false`. Result: the frames the callback was
invoked on, in order. -/
def trace_unsynchronized (frames : List Nat) (cb : Nat → Bool) : List Nat :=
  match frames with
  | [] => []
  | f :: rest => if cb f then f :: trace_unsynchronized rest cb else [f]

/-- `trace` in backtrace/mod.rs: bind `lock()` to an unused guard, then
walk unconditionally; dropping a real guard clears the held flag, while
a `none` result leaves the state as `lock` returned it. -/
def trace (s : LockState) (frames : List Nat) (cb : Nat → Bool) :
    List Nat × LockState :=
  let r := lock s
  let visited := trace_unsynchronized frames cb
  match r.1 with
  | some _ => (visited, { lockHeld := false })
  | none => (visited, r.2)

/-- The loop of Rust `slice::binary_search_by`, over the key sequence
`keys`: `.ok i` when `keys[i]` compares equal to `target`, otherwise
`.error` with the insertion point. -/
def binarySearchLoop (keys : List Nat) (target left right : Nat) :
    Except Nat Nat :=
  if h : left < right then
    let mid := left + (right - left) / 2
    let k := keys.getD mid 0
    if k < target then binarySearchLoop keys target (mid + 1) right
    else if target < k then binarySearchLoop keys target left mid
    else .ok mid
  else .error left
termination_by right - left
decreasing_by
  all_goals omega

/-- `binary_search_by_key` over the whole table. -/
def binarySearchByKey (keys : List Nat) (target : Nat) : Except Nat Nat :=
  binarySearchLoop keys target 0 keys.length

/-- The index-selection step shared by the three `search_symtab`
implementations: `Ok(i) => i, Err(i) => i.checked_sub(1)?`. -/
def precedingIndex (keys : List Nat) (target : Nat) : Option Nat :=
  match binarySearchByKey keys target with
  | .ok i => some i
  | .error 0 => none
  | .error (i + 1) => some i

/-- An ELF symbol pre-parsed into the sorted table (`ParsedSym`):
address, recorded size, and string-table offset of the name. -/
structure ParsedSym where
  address : Nat
  size : Nat
  name : Nat
deriving DecidableEq

/-- The ELF `Object`: the address-sorted symbol table plus the string
table (`strings.get(..).ok()`, which can fail). -/
structure ElfObject where
  syms : List ParsedSym
  strings : Nat → Option String

/-- ELF `Object::search_symtab`: binary search by address, step back to
the preceding entry on a miss, then require the address to lie in the
recorded `[address, address + size]` range of that symbol before
resolving its name. -/
def ElfObject.search_symtab (o : ElfObject) (addr : Nat) : Option String :=
  (precedingIndex (o.syms.map ParsedSym.address) addr).bind fun i =>
    (o.syms.get? i).bind fun sym =>
      if sym.address ≤ addr ∧ addr ≤ sym.address + sym.size then
        o.strings sym.name
      else none

/-- The PE/COFF `Object`: `symbols` is the address-sorted list of
`(image_base + section va + value, symbol record)` pairs (the record
abstracted to an id), and `symName` is `ImageSymbol::name` against the
string table, which can fail. -/
structure PeObject where
  symbols : List (Nat × Nat)
  symName : Nat → Option String

/-- PE `Object::search_symtab`: closest preceding symbol, no size gate
(COFF records no per-symbol size). -/
def PeObject.search_symtab (o : PeObject) (addr : Nat) : Option String :=
  (precedingIndex (o.symbols.map Prod.fst) addr).bind fun i =>
    (o.symbols.get? i).bind fun p => o.symName p.2

/-- The Mach-O `Object`: the address-sorted `(name, n_value)` list. -/
structure MachOObject where
  syms : List (String × Nat)
deriving DecidableEq

/-- Mach-O `Object::search_symtab`: closest preceding symbol, returning
its stored name directly. -/
def MachOObject.search_symtab (o : MachOObject) (addr : Nat) : Option String :=
  (precedingIndex (o.syms.map Prod.snd) addr).bind fun i =>
    (o.syms.get? i).map Prod.fst

/-! Concrete fixtures used by witnesses and counterexamples. -/

/-- A trivial parsed context for fixtures. -/
def ctxNil : Context :=
  { findFrames := fun _ => none, searchSymtab := fun _ => none }

/-- A library loaded with bias 1000 whose single segment covers SVMAs
`[100, 200)`, hence AVMAs `[1100, 1200)`. -/
def libW : Library :=
  { name := "libw.so", segments := [{ len := 100, stated_virtual_memory_address := 100 }],
    bias := 1000 }

/-- Cache holding just `libW`. -/
def cacheW : Cache := { libraries := [libW], mappings := [] }

/-- Two libraries whose loaded address ranges overlap: both cover AVMAs
`[100, 200)`, the first with bias 0, the second with bias 50. -/
def cacheOverlap : Cache :=
  { libraries :=
      [ { name := "first", segments := [{ len := 100, stated_virtual_memory_address := 100 }],
          bias := 0 },
        { name := "second", segments := [{ len := 100, stated_virtual_memory_address := 50 }],
          bias := 50 } ],
    mappings := [] }

/-- Environment for which every mapping build fails (all opens error). -/
def envFail : Env :=
  { native_libraries := [libW], newMapping := fun _ => none,
    currentExe := none, dladdrHit := fun _ => false }

/-- A cache already holding one mapping, for library index 3. -/
def cacheOne : Cache :=
  { libraries := [libW], mappings := [(3, { cx := ctxNil })] }

/-- Environment in which every library path resolves to the current
executable and every mapping build succeeds. -/
def envRun : Env :=
  { native_libraries := [], newMapping := fun _ => some { cx := ctxNil },
    currentExe := some "exe", dladdrHit := fun _ => false }

/-- A library at bias 0 whose single segment covers addresses `[0, 10)`. -/
def libLow : Library :=
  { name := "low.so",
    segments := [{ len := 10, stated_virtual_memory_address := 0 }],
    bias := 0 }

/-- A context whose DWARF query yields no frames but whose symbol-table
search finds a name. -/
def ctxSymtabOnly : Context :=
  { findFrames := fun _ => some [], searchSymtab := fun _ => some "sym" }

/-- Environment for the tier-exclusivity witness: addresses translate
through `libLow`, the mapping parses, DWARF is empty, the symbol table
hits, dladdr misses. -/
def envSymtab : Env :=
  { native_libraries := [libLow],
    newMapping := fun _ => some { cx := ctxSymtabOnly },
    currentExe := none, dladdrHit := fun _ => false }

/-- A context whose DWARF query yields one frame at every address. -/
def ctxOneFrame : Context :=
  { findFrames := fun _ => some [{ name := some "f", location := none }],
    searchSymtab := fun _ => some "f" }

/-- Environment in which no libraries are enumerated, yet the current
executable would parse and its DWARF query would yield a frame; dladdr
misses. -/
def envNoLibs : Env :=
  { native_libraries := [],
    newMapping := fun _ => some { cx := ctxOneFrame },
    currentExe := some "exe", dladdrHit := fun _ => false }

/-- Environment with no libraries and a dladdr hit. -/
def envDladdr : Env :=
  { native_libraries := [], newMapping := fun _ => none,
    currentExe := none, dladdrHit := fun _ => true }

/-- Loader environment reporting two libraries, while `cacheStale` below
was built when only `libW` was loaded (a module was loaded since). -/
def envTwoLibs : Env :=
  { native_libraries := [libW, libLow], newMapping := fun _ => none,
    currentExe := none, dladdrHit := fun _ => false }

/-- A global cache whose library list predates the load of `libLow`. -/
def cacheStale : Cache :=
  { libraries := [libW], mappings := [(0, { cx := ctxNil })] }

/-- A two-symbol ELF object: addresses 10 and 20, each of size 5. -/
def oElfW : ElfObject :=
  { syms := [{ address := 10, size := 5, name := 0 },
             { address := 20, size := 5, name := 1 }],
    strings := fun n => if n == 0 then some "alpha" else some "beta" }

/-- A two-symbol PE/COFF object at mapped addresses 10 and 20. -/
def oPeW : PeObject :=
  { symbols := [(10, 0), (20, 1)],
    symName := fun n => if n == 0 then some "p0" else some "p1" }

/-- A two-symbol Mach-O object at n_values 10 and 20. -/
def oMachW : MachOObject :=
  { syms := [("m0", 10), ("m1", 20)] }

end BacktraceRs

namespace BacktraceRs

/-! ## Helper lemmas -/

theorem avma_filterMap_first (addr : Nat) :
    ∀ (libs : List Library) (n i : Nat) (lib : Library),
      libs.get? i = some lib →
      lib.containsAddr addr = true →
      (∀ j ljb, j < i → libs.get? j = some ljb → ljb.containsAddr addr = false) →
      ((List.enumFrom n libs).filterMap fun p =>
          if p.2.containsAddr addr then some (p.1, addr - p.2.bias) else none).head?
        = some (n + i, addr - lib.bias) := by
  intro libs
  induction libs with
  | nil => intro n i lib hget; simp at hget
  | cons a t ih =>
    intro n i lib hget hcont hfirst
    cases i with
    | zero =>
      rw [List.get?_cons_zero, Option.some_inj] at hget
      subst hget
      simp [List.enumFrom_cons, List.filterMap_cons, hcont]
    | succ i =>
      have ha : a.containsAddr addr = false :=
        hfirst 0 a (Nat.succ_pos i) List.get?_cons_zero
      rw [List.get?_cons_succ] at hget
      have hrest : ∀ j ljb, j < i → t.get? j = some ljb →
          ljb.containsAddr addr = false := by
        intro j ljb hj hval
        exact hfirst (j + 1) ljb (Nat.succ_lt_succ hj) (by simpa using hval)
      have hrec := ih (n + 1) i lib hget hcont hrest
      rw [List.enumFrom_cons, List.filterMap_cons]
      simp only [ha, Bool.false_eq_true, reduceIte]
      rw [hrec]
      rw [show n + 1 + i = n + (i + 1) from by omega]

/-! ## C1: AVMA to SVMA translation -/

/-- C1 (amended: when several loaded libraries contain the address the
lowest-index one wins): if library `lib` at index `i` contains `addr`
in one of its segments and no earlier library does, then
`avma_to_svma addr` returns `(i, addr - bias)`, and that SVMA lies in
the stated virtual-address range of a containing segment of `lib`. -/
theorem avma_to_svma_spec (c : Cache) (addr i : Nat) (lib : Library)
    (hget : c.libraries.get? i = some lib)
    (hcont : lib.containsAddr addr = true)
    (hfirst : ∀ j ljb, j < i → c.libraries.get? j = some ljb →
        ljb.containsAddr addr = false) :
    c.avma_to_svma addr = some (i, addr - lib.bias) ∧
    ∃ s ∈ lib.segments, s.contains lib.bias addr = true ∧
      s.stated_virtual_memory_address ≤ addr - lib.bias ∧
      addr - lib.bias < s.stated_virtual_memory_address + s.len := by
  constructor
  · have h := avma_filterMap_first addr c.libraries 0 i lib hget hcont hfirst
    rw [Cache.avma_to_svma, List.enum]
    simpa using h
  · rw [Library.containsAddr, List.any_eq_true] at hcont
    obtain ⟨s, hs, hsc⟩ := hcont
    refine ⟨s, hs, hsc, ?_, ?_⟩ <;>
    · rw [LibrarySegment.contains] at hsc
      simp only [Bool.and_eq_true, decide_eq_true_eq] at hsc
      omega

/-- Witness for C1: address 1150 in `cacheW` translates to library 0 at
SVMA 150, inside the stated range `[100, 200)`. -/
theorem avma_to_svma_spec_witness :
    cacheW.avma_to_svma 1150 = some (0, 1150 - libW.bias) ∧
    ∃ s ∈ libW.segments, s.contains libW.bias 1150 = true ∧
      s.stated_virtual_memory_address ≤ 1150 - libW.bias ∧
      1150 - libW.bias < s.stated_virtual_memory_address + s.len :=
  avma_to_svma_spec cacheW 1150 0 libW (by decide) (by decide)
    (fun j ljb hj _ => absurd hj (Nat.not_lt_zero j))

/-- Counterexample to C1 as stated: in `cacheOverlap`, address 150 lies
inside a segment of the library at index 1 (its loaded range is
`[100, 200)` with bias 50), yet `avma_to_svma` does not return
`(1, 150 - 50)`: it returns the index-0 hit instead. -/
theorem avma_to_svma_counterexample :
    (∃ lib, cacheOverlap.libraries.get? 1 = some lib ∧
      lib.containsAddr 150 = true ∧
      cacheOverlap.avma_to_svma 150 ≠ some (1, 150 - lib.bias)) ∧
    cacheOverlap.avma_to_svma 150 = some (0, 150) := by
  constructor
  · exact ⟨{ name := "second",
             segments := [{ len := 100, stated_virtual_memory_address := 50 }],
             bias := 50 },
           by decide, by decide, by decide⟩
  · decide

end BacktraceRs

namespace BacktraceRs

/-! ## Mapping-cache lemmas -/

theorem position_fst_eq_none {β : Type} (lib : Nat) (ms : List (Nat × β))
    (h : lib ∉ ms.map Prod.fst) :
    position (fun p => p.1 == lib) ms = none := by
  induction ms with
  | nil => rfl
  | cons a t ih =>
    simp only [List.map_cons, List.mem_cons] at h
    push_neg at h
    obtain ⟨h1, h2⟩ := h
    have hb : (a.1 == lib) = false :=
      beq_eq_false_iff_ne.mpr fun hx => h1 hx.symm
    rw [position, hb]
    simp [ih h2]

theorem mapping_for_lib_hit (env : Env) (c : Cache) (lib idx : Nat)
    (entry : Nat × Mapping)
    (hpos : position (fun p => p.1 == lib) c.mappings = some idx)
    (hget : c.mappings.get? idx = some entry) :
    Cache.mapping_for_lib env c lib =
      (some entry.2.cx,
       { c with mappings := entry :: c.mappings.eraseIdx idx }) := by
  simp only [Cache.mapping_for_lib, hpos, hget]
  by_cases h0 : idx = 0
  · subst h0
    cases hm : c.mappings with
    | nil => rw [hm] at hget; simp at hget
    | cons e t =>
      rw [hm, List.get?_cons_zero, Option.some_inj] at hget
      subst hget
      simp [hm]
  · have hb : (idx == 0) = false := beq_eq_false_iff_ne.mpr h0
    simp [hb]

theorem mapping_for_lib_miss (env : Env) (c : Cache) (lib : Nat)
    (path : String) (m : Mapping)
    (hpos : position (fun p => p.1 == lib) c.mappings = none)
    (hpath : c.libPath env lib = some path)
    (hnew : env.newMapping path = some m) :
    Cache.mapping_for_lib env c lib =
      (some m.cx,
       { c with mappings := (lib, m) ::
           (if c.mappings.length = MAPPINGS_CACHE_SIZE
            then c.mappings.dropLast else c.mappings) }) := by
  simp only [Cache.mapping_for_lib, hpos, hpath, hnew]
  by_cases h4 : c.mappings.length = MAPPINGS_CACHE_SIZE
  · have hb : (c.mappings.length == MAPPINGS_CACHE_SIZE) = true := beq_iff_eq.mpr h4
    simp [hb, h4]
  · have hb : (c.mappings.length == MAPPINGS_CACHE_SIZE) = false :=
      beq_eq_false_iff_ne.mpr h4
    simp [hb, h4]

theorem mapping_for_lib_fail (env : Env) (c : Cache) (lib : Nat)
    (hpos : position (fun p => p.1 == lib) c.mappings = none)
    (hsrc : (c.libPath env lib).bind env.newMapping = none) :
    Cache.mapping_for_lib env c lib = (none, c) := by
  simp only [Cache.mapping_for_lib, hpos]
  cases hp : c.libPath env lib with
  | none => simp
  | some path =>
    rw [hp] at hsrc
    simp only [Option.some_bind] at hsrc
    simp [hsrc]

theorem mapping_for_lib_libraries (env : Env) (c : Cache) (lib : Nat) :
    (Cache.mapping_for_lib env c lib).2.libraries = c.libraries := by
  cases hpos : position (fun p => p.1 == lib) c.mappings with
  | some idx =>
    cases hget : c.mappings.get? idx <;>
      simp only [Cache.mapping_for_lib, hpos, hget]
  | none =>
    cases hp : c.libPath env lib with
    | none => simp [Cache.mapping_for_lib, hpos, hp]
    | some path =>
      cases hn : env.newMapping path <;>
        simp only [Cache.mapping_for_lib, hpos, hp, hn]

theorem libPath_eq_of_libraries (env : Env) (c c2 : Cache) (lib : Nat)
    (h : c.libraries = c2.libraries) :
    c.libPath env lib = c2.libPath env lib := by
  rw [Cache.libPath, Cache.libPath, h]

theorem take_append_take {α : Type} (xs ys : List α) (n : Nat) :
    (xs ++ ys.take n).take n = (xs ++ ys).take n := by
  rw [List.take_append_eq_append_take, List.take_append_eq_append_take,
    List.take_take, Nat.min_eq_left (Nat.sub_le n xs.length)]

end BacktraceRs

namespace BacktraceRs

theorem runLibs_indices (env : Env) :
    ∀ (libs : List Nat) (c : Cache),
      c.mappings.length ≤ MAPPINGS_CACHE_SIZE →
      libs.Nodup →
      (∀ l ∈ libs, l ∉ c.mappings.map Prod.fst) →
      (∀ l ∈ libs, ((c.libPath env l).bind env.newMapping).isSome = true) →
      (runLibs env c libs).mappings.map Prod.fst =
        (libs.reverse ++ c.mappings.map Prod.fst).take MAPPINGS_CACHE_SIZE ∧
      (runLibs env c libs).libraries = c.libraries := by
  intro libs
  induction libs with
  | nil =>
    intro c hlen _ _ _
    refine ⟨?_, rfl⟩
    rw [runLibs]
    simp only [List.foldl_nil, List.reverse_nil, List.nil_append]
    rw [List.take_of_length_le (by rw [List.length_map]; exact hlen)]
  | cons l rest ih =>
    intro c hlen hnd hfresh hsome
    obtain ⟨hlnotin, hndrest⟩ := List.nodup_cons.mp hnd
    have hfl : l ∉ c.mappings.map Prod.fst := hfresh l (List.mem_cons_self l rest)
    have hpos := position_fst_eq_none l c.mappings hfl
    have hs := hsome l (List.mem_cons_self l rest)
    obtain ⟨mres, hmres⟩ := Option.isSome_iff_exists.mp hs
    obtain ⟨path, hpath⟩ : ∃ p, c.libPath env l = some p := by
      cases hp : c.libPath env l with
      | none => rw [hp] at hmres; simp at hmres
      | some p => exact ⟨p, rfl⟩
    have hm : env.newMapping path = some mres := by
      rw [hpath, Option.some_bind] at hmres
      exact hmres
    have hstep := mapping_for_lib_miss env c l path mres hpos hpath hm
    have hc1m : (Cache.mapping_for_lib env c l).2.mappings = (l, mres) ::
        (if c.mappings.length = MAPPINGS_CACHE_SIZE
         then c.mappings.dropLast else c.mappings) := by
      rw [hstep]
    have hc1lib : (Cache.mapping_for_lib env c l).2.libraries = c.libraries :=
      mapping_for_lib_libraries env c l
    have hmapfst : (Cache.mapping_for_lib env c l).2.mappings.map Prod.fst =
        (l :: c.mappings.map Prod.fst).take MAPPINGS_CACHE_SIZE := by
      rw [hc1m]
      by_cases h4 : c.mappings.length = MAPPINGS_CACHE_SIZE
      · rw [if_pos h4, List.map_cons, List.map_dropLast,
          show MAPPINGS_CACHE_SIZE = 3 + 1 from rfl, List.take_succ_cons,
          List.dropLast_eq_take, List.length_map, h4]
        rfl
      · rw [if_neg h4, List.map_cons,
          List.take_of_length_le (by
            rw [List.length_cons, List.length_map]
            rw [MAPPINGS_CACHE_SIZE] at hlen h4 ⊢
            omega)]
    have hlen1 : (Cache.mapping_for_lib env c l).2.mappings.length ≤
        MAPPINGS_CACHE_SIZE := by
      have := congrArg List.length hmapfst
      rw [List.length_map, List.length_take] at this
      rw [this]
      exact Nat.min_le_left _ _
    have hfresh1 : ∀ l2 ∈ rest,
        l2 ∉ (Cache.mapping_for_lib env c l).2.mappings.map Prod.fst := by
      intro l2 hl2 hmem
      rw [hmapfst] at hmem
      have hmem2 := List.take_subset _ _ hmem
      rcases List.mem_cons.mp hmem2 with h | h
      · exact hlnotin (h ▸ hl2)
      · exact hfresh l2 (List.mem_cons_of_mem l hl2) h
    have hsome1 : ∀ l2 ∈ rest,
        (((Cache.mapping_for_lib env c l).2.libPath env l2).bind
          env.newMapping).isSome = true := by
      intro l2 hl2
      rw [libPath_eq_of_libraries env _ c l2 hc1lib]
      exact hsome l2 (List.mem_cons_of_mem l hl2)
    obtain ⟨ih1, ih2⟩ :=
      ih (Cache.mapping_for_lib env c l).2 hlen1 hndrest hfresh1 hsome1
    have hrun : runLibs env c (l :: rest) =
        runLibs env (Cache.mapping_for_lib env c l).2 rest := rfl
    refine ⟨?_, ?_⟩
    · rw [hrun, ih1, hmapfst, take_append_take, List.reverse_cons,
        List.append_assoc, List.singleton_append]
    · rw [hrun, ih2, hc1lib]

/-! ## C3: LRU order of the mapping cache -/

/-- C3: `mapping_for_lib` implements LRU order. Hit: the cached entry is
moved to index 0 and its context returned. Miss (with a successfully
built mapping): the new entry is inserted at index 0, after evicting
the last entry when the cache is at capacity. Consequently, after
resolving more than `MAPPINGS_CACHE_SIZE` distinct fresh library
indices in order, the cache holds exactly the
`MAPPINGS_CACHE_SIZE` most recently referenced libraries, most recent
first. -/
theorem lru_order :
    (∀ (env : Env) (c : Cache) (lib idx : Nat) (entry : Nat × Mapping),
      position (fun p => p.1 == lib) c.mappings = some idx →
      c.mappings.get? idx = some entry →
      Cache.mapping_for_lib env c lib =
        (some entry.2.cx,
         { c with mappings := entry :: c.mappings.eraseIdx idx })) ∧
    (∀ (env : Env) (c : Cache) (lib : Nat) (path : String) (m : Mapping),
      position (fun p => p.1 == lib) c.mappings = none →
      c.libPath env lib = some path →
      env.newMapping path = some m →
      Cache.mapping_for_lib env c lib =
        (some m.cx,
         { c with mappings := (lib, m) ::
             (if c.mappings.length = MAPPINGS_CACHE_SIZE
              then c.mappings.dropLast else c.mappings) })) ∧
    (∀ (env : Env) (c : Cache) (libs : List Nat),
      c.mappings.length ≤ MAPPINGS_CACHE_SIZE →
      libs.Nodup →
      (∀ l ∈ libs, l ∉ c.mappings.map Prod.fst) →
      (∀ l ∈ libs, ((c.libPath env l).bind env.newMapping).isSome = true) →
      MAPPINGS_CACHE_SIZE < libs.length →
      (runLibs env c libs).mappings.map Prod.fst =
        libs.reverse.take MAPPINGS_CACHE_SIZE ∧
      (runLibs env c libs).mappings.length = MAPPINGS_CACHE_SIZE) := by
  refine ⟨mapping_for_lib_hit, mapping_for_lib_miss, ?_⟩
  intro env c libs hlen hnd hfresh hsome hk
  obtain ⟨h1, _⟩ := runLibs_indices env libs c hlen hnd hfresh hsome
  have hrev : MAPPINGS_CACHE_SIZE ≤ libs.reverse.length := by
    rw [List.length_reverse]
    omega
  have hfst : (runLibs env c libs).mappings.map Prod.fst =
      libs.reverse.take MAPPINGS_CACHE_SIZE := by
    rw [h1, List.take_append_of_le_length hrev]
  refine ⟨hfst, ?_⟩
  have := congrArg List.length hfst
  rw [List.length_map, List.length_take, List.length_reverse] at this
  rw [this]
  omega

/-- Witness for C3: from the fresh global cache, resolving the six
distinct library indices 0..5 leaves exactly the four most recently
referenced ones, most recent first. -/
theorem lru_order_witness :
    (runLibs envRun (Cache.new envRun) [0, 1, 2, 3, 4, 5]).mappings.map
        Prod.fst =
      ([0, 1, 2, 3, 4, 5] : List Nat).reverse.take MAPPINGS_CACHE_SIZE :=
  (lru_order.2.2 envRun (Cache.new envRun) [0, 1, 2, 3, 4, 5]
    (by decide) (by decide) (by decide) (by decide) (by decide)).1

end BacktraceRs

namespace BacktraceRs

/-! ## C4: the cache never exceeds its fixed capacity -/

/-- C4: starting from the empty cache created by `Cache::new`, every
operation preserves `mappings.length ≤ MAPPINGS_CACHE_SIZE` (which is
4): `Cache::new` starts at 0, `mapping_for_lib` (hit, failed miss, or
miss with insertion and possible eviction) preserves the bound, and
`clear_symbol_cache` always leaves a cache within the bound. -/
theorem cache_size_invariant :
    MAPPINGS_CACHE_SIZE = 4 ∧
    (∀ env : Env, (Cache.new env).mappings.length ≤ MAPPINGS_CACHE_SIZE) ∧
    (∀ (env : Env) (c : Cache) (lib : Nat),
      c.mappings.length ≤ MAPPINGS_CACHE_SIZE →
      (Cache.mapping_for_lib env c lib).2.mappings.length ≤
        MAPPINGS_CACHE_SIZE) ∧
    (∀ (env : Env) (s : Option Cache) (c : Cache),
      clear_symbol_cache env s = some c →
      c.mappings.length ≤ MAPPINGS_CACHE_SIZE) := by
  refine ⟨rfl, ?_, ?_, ?_⟩
  · intro env
    simp [Cache.new, MAPPINGS_CACHE_SIZE]
  · intro env c lib hlen
    cases hpos : position (fun p => p.1 == lib) c.mappings with
    | some idx =>
      cases hget : c.mappings.get? idx with
      | none =>
        simp only [Cache.mapping_for_lib, hpos, hget]
        exact hlen
      | some entry =>
        rw [mapping_for_lib_hit env c lib idx entry hpos hget]
        obtain ⟨hidx, _⟩ := List.get?_eq_some.mp hget
        simp only [List.length_cons, List.length_eraseIdx, if_pos hidx]
        omega
    | none =>
      cases hp : c.libPath env lib with
      | none =>
        simp only [Cache.mapping_for_lib, hpos, hp]
        exact hlen
      | some path =>
        cases hn : env.newMapping path with
        | none =>
          simp only [Cache.mapping_for_lib, hpos, hp, hn]
          exact hlen
        | some m =>
          rw [mapping_for_lib_miss env c lib path m hpos hp hn]
          by_cases h4 : c.mappings.length = MAPPINGS_CACHE_SIZE
          · simp only [if_pos h4, List.length_cons, List.length_dropLast]
            rw [MAPPINGS_CACHE_SIZE] at h4 ⊢
            omega
          · simp only [if_neg h4, List.length_cons]
            rw [MAPPINGS_CACHE_SIZE] at h4 hlen ⊢
            omega
  · intro env s c hc
    simp only [clear_symbol_cache, withGlobal, Option.some_inj] at hc
    rw [← hc]
    simp [MAPPINGS_CACHE_SIZE]

/-- Witness for C4: one `mapping_for_lib` call on a cache holding one
entry stays within the capacity bound. -/
theorem cache_size_invariant_witness :
    (Cache.mapping_for_lib envFail cacheOne 0).2.mappings.length ≤
      MAPPINGS_CACHE_SIZE :=
  cache_size_invariant.2.2.1 envFail cacheOne 0 (by decide)

/-! ## C8: a failing miss leaves the cache exactly as it was -/

/-- C8: for every cache state and library index, if the library is not
cached and the miss path fails at any step (path resolution, or the
open + mmap + parse inside `Mapping::new`), `mapping_for_lib` returns
the unavailable outcome `none` and the cache is returned exactly as it
was: no entry added, removed, or reordered. -/
theorem miss_failure_preserves_cache (env : Env) (c : Cache) (lib : Nat)
    (habsent : lib ∉ c.mappings.map Prod.fst)
    (hfail : (c.libPath env lib).bind env.newMapping = none) :
    Cache.mapping_for_lib env c lib = (none, c) :=
  mapping_for_lib_fail env c lib
    (position_fst_eq_none lib c.mappings habsent) hfail

/-- Witness for C8: with every mapping build failing, a lookup of an
uncached library returns `none` and leaves the one-entry cache
untouched. -/
theorem miss_failure_preserves_cache_witness :
    Cache.mapping_for_lib envFail cacheOne 0 = (none, cacheOne) :=
  miss_failure_preserves_cache envFail cacheOne 0 (by decide) rfl

end BacktraceRs

namespace BacktraceRs

/-! ## Resolve lemmas -/

theorem resolveWith_libraries (env : Env) (c : Cache) (addr : Nat) :
    (resolveWith env c addr).2.libraries = c.libraries := by
  cases ha : c.avma_to_svma addr with
  | none => simp [resolveWith, ha]
  | some p =>
    obtain ⟨lib, svma⟩ := p
    have hl := mapping_for_lib_libraries env c lib
    cases hm : Cache.mapping_for_lib env c lib with
    | mk mcx c1 =>
      rw [hm] at hl
      replace hl : c1.libraries = c.libraries := hl
      cases mcx with
      | none => simp [resolveWith, ha, hm, hl]
      | some cx =>
        cases hf : cx.findFrames svma with
        | none =>
          cases hs : cx.searchSymtab svma <;>
            simp [resolveWith, ha, hm, hf, hs, hl]
        | some fs =>
          cases fs with
          | nil =>
            cases hs : cx.searchSymtab svma <;>
              simp [resolveWith, ha, hm, hf, hs, hl]
          | cons f rest => simp [resolveWith, ha, hm, hf, hl]

theorem resolve_snd (env : Env) (s : Option Cache) (addr : Nat) :
    (resolve env s addr).2 =
      some (resolveWith env (s.getD (Cache.new env)) addr).2 := by
  rw [resolve]
  split <;> rfl

theorem resolve_fst (env : Env) (s : Option Cache) (addr : Nat) :
    (resolve env s addr).1 =
      if (resolveWith env (s.getD (Cache.new env)) addr).1.isEmpty
      then (if env.dladdrHit addr then [Sym.dladdr addr] else [])
      else (resolveWith env (s.getD (Cache.new env)) addr).1 := by
  rw [resolve]
  simp only [withGlobal]
  split <;> rfl

theorem resolveWith_shape (env : Env) (c : Cache) (addr : Nat) :
    (∃ (svma : Nat) (fs : List DwarfFrame), fs ≠ [] ∧
      (resolveWith env c addr).1 =
        fs.map fun f => Sym.frame svma f.location f.name) ∨
    (∃ (svma : Nat) (n : String),
      (resolveWith env c addr).1 = [Sym.symtab svma n]) ∨
    (resolveWith env c addr).1 = [] := by
  cases ha : c.avma_to_svma addr with
  | none => right; right; simp [resolveWith, ha]
  | some p =>
    obtain ⟨lib, svma⟩ := p
    cases hm : Cache.mapping_for_lib env c lib with
    | mk mcx c1 =>
      cases mcx with
      | none => right; right; simp [resolveWith, ha, hm]
      | some cx =>
        cases hf : cx.findFrames svma with
        | none =>
          cases hs : cx.searchSymtab svma with
          | none => right; right; simp [resolveWith, ha, hm, hf, hs]
          | some n =>
            right; left
            exact ⟨svma, n, by simp [resolveWith, ha, hm, hf, hs]⟩
        | some fs =>
          cases fs with
          | nil =>
            cases hs : cx.searchSymtab svma with
            | none => right; right; simp [resolveWith, ha, hm, hf, hs]
            | some n =>
              right; left
              exact ⟨svma, n, by simp [resolveWith, ha, hm, hf, hs]⟩
          | cons f rest =>
            left
            exact ⟨svma, f :: rest, by simp,
              by simp [resolveWith, ha, hm, hf]⟩

theorem resolve_shape (env : Env) (s : Option Cache) (addr : Nat) :
    (∃ (svma : Nat) (fs : List DwarfFrame), fs ≠ [] ∧
      (resolve env s addr).1 =
        fs.map fun f => Sym.frame svma f.location f.name) ∨
    (∃ (svma : Nat) (n : String),
      (resolve env s addr).1 = [Sym.symtab svma n]) ∨
    (resolve env s addr).1 = [Sym.dladdr addr] ∨
    (resolve env s addr).1 = [] := by
  rcases resolveWith_shape env (s.getD (Cache.new env)) addr with
    ⟨svma, fs, hne, heq⟩ | ⟨svma, n, heq⟩ | heq
  · left
    refine ⟨svma, fs, hne, ?_⟩
    rw [resolve_fst, heq]
    cases fs with
    | nil => exact absurd rfl hne
    | cons a l => rfl
  · right; left
    exact ⟨svma, n, by rw [resolve_fst, heq]; rfl⟩
  · by_cases hd : env.dladdrHit addr = true
    · right; right; left
      rw [resolve_fst, heq]
      simp [hd]
    · right; right; right
      rw [resolve_fst, heq]
      simp [hd]

end BacktraceRs

namespace BacktraceRs

/-! ## C2: the fallback chain stops at the first tier that produces
anything -/

/-- C2: the symbols a `resolve` call emits come from exactly one tier.
If any `FrameLocation` (DWARF) result is emitted, every emitted symbol
is a `FrameLocation`. If the DWARF query emits nothing and the
symbol-table search succeeds, the output is exactly one `Symtab`
result. If any `Dladdr` result is emitted, the output is exactly that
one `Dladdr` result, so the dladdr tier only ever fires when every
earlier tier emitted nothing. -/
theorem resolve_tier_exclusive (env : Env) (s : Option Cache) (addr : Nat) :
    ((∃ x ∈ (resolve env s addr).1, x.isFrame = true) →
      ∀ x ∈ (resolve env s addr).1, x.isFrame = true) ∧
    (∀ (lib svma : Nat) (cx : Context) (c1 : Cache) (n : String),
      (s.getD (Cache.new env)).avma_to_svma addr = some (lib, svma) →
      Cache.mapping_for_lib env (s.getD (Cache.new env)) lib =
        (some cx, c1) →
      (cx.findFrames svma).getD [] = [] →
      cx.searchSymtab svma = some n →
      (resolve env s addr).1 = [Sym.symtab svma n]) ∧
    ((∃ x ∈ (resolve env s addr).1, x.isDladdr = true) →
      (resolve env s addr).1 = [Sym.dladdr addr]) := by
  refine ⟨?_, ?_, ?_⟩
  · rintro ⟨x, hx, hfr⟩ y hy
    rcases resolve_shape env s addr with
      ⟨svma, fs, _, heq⟩ | ⟨svma, n, heq⟩ | heq | heq
    · rw [heq] at hy
      obtain ⟨f, _, hf⟩ := List.mem_map.mp hy
      rw [← hf]
      rfl
    · rw [heq] at hx
      simp only [List.mem_singleton] at hx
      rw [hx] at hfr
      exact absurd hfr (by simp [Sym.isFrame])
    · rw [heq] at hx
      simp only [List.mem_singleton] at hx
      rw [hx] at hfr
      exact absurd hfr (by simp [Sym.isFrame])
    · rw [heq] at hx
      exact absurd hx (List.not_mem_nil x)
  · intro lib svma cx c1 n havma hmap hff hss
    have hrw : (resolveWith env (s.getD (Cache.new env)) addr).1 =
        [Sym.symtab svma n] := by
      cases hf2 : cx.findFrames svma with
      | none => simp [resolveWith, havma, hmap, hf2, hss]
      | some fs =>
        rw [hf2] at hff
        simp only [Option.getD_some] at hff
        rw [hff] at hf2
        simp [resolveWith, havma, hmap, hf2, hss]
    rw [resolve_fst, hrw]
    rfl
  · rintro ⟨x, hx, hdl⟩
    rcases resolve_shape env s addr with
      ⟨svma, fs, _, heq⟩ | ⟨svma, n, heq⟩ | heq | heq
    · rw [heq] at hx
      obtain ⟨f, _, hf⟩ := List.mem_map.mp hx
      rw [← hf] at hdl
      exact absurd hdl (by simp [Sym.isDladdr])
    · rw [heq] at hx
      simp only [List.mem_singleton] at hx
      rw [hx] at hdl
      exact absurd hdl (by simp [Sym.isDladdr])
    · exact heq
    · rw [heq] at hx
      exact absurd hx (List.not_mem_nil x)

/-- Witness for C2: translation hits `libLow`, the DWARF tier is empty,
the symbol table hits, so the output is exactly one `Symtab` result. -/
theorem resolve_tier_exclusive_witness :
    (resolve envSymtab none 5).1 = [Sym.symtab 5 "sym"] :=
  (resolve_tier_exclusive envSymtab none 5).2.1 0 5 ctxSymtabOnly
    { libraries := [libLow], mappings := [(0, { cx := ctxSymtabOnly })] }
    "sym" rfl rfl rfl rfl

/-! ## C6: translation failure and the fallback it triggers -/

/-- C6 (amended: on translation failure the code abandons the DWARF and
symbol-table tiers rather than querying DWARF with the untranslated
address): when no enumerated library contains the address,
`resolve` emits nothing from the DWARF or symbol-table tiers — the
`with_global` closure returns immediately — and the `dladdr` fallback
then runs with the untranslated address, emitting one `Dladdr` result
exactly when the OS lookup succeeds; the cache state is unchanged. -/
theorem no_translation_falls_to_dladdr (env : Env) (s : Option Cache)
    (addr : Nat)
    (h : (s.getD (Cache.new env)).avma_to_svma addr = none) :
    (resolve env s addr).1 =
      (if env.dladdrHit addr then [Sym.dladdr addr] else []) ∧
    (resolve env s addr).2 = some (s.getD (Cache.new env)) := by
  have hrw : resolveWith env (s.getD (Cache.new env)) addr =
      ([], s.getD (Cache.new env)) := by
    simp [resolveWith, h]
  constructor
  · rw [resolve_fst, hrw]
    rfl
  · rw [resolve_snd, hrw]

/-- Witness for C6 (amended): with no libraries enumerated and a dladdr
hit, resolution emits exactly the one `Dladdr` result. -/
theorem no_translation_falls_to_dladdr_witness :
    (resolve envDladdr none 9).1 = [Sym.dladdr 9] :=
  ((no_translation_falls_to_dladdr envDladdr none 9 rfl).1).trans rfl

/-- Counterexample to C6 as stated: with no enumerated library
containing address 5, the current executable would parse and its DWARF
query at the untranslated address 5 would yield a frame — so a skip to
the DWARF tier would emit a `FrameLocation` — yet `resolve` emits
nothing at all. -/
theorem resolve_untranslated_counterexample :
    (Cache.new envNoLibs).avma_to_svma 5 = none ∧
    (envNoLibs.currentExe.bind envNoLibs.newMapping).map
        (fun m => m.cx.findFrames 5) =
      some (some [{ name := some "f", location := none }]) ∧
    (resolve envNoLibs none 5).1 = [] :=
  ⟨rfl, rfl, rfl⟩

/-! ## C9: clearing the symbol cache -/

/-- C9 (amended: the loaded-library list is never rebuilt, not even by a
cache clear): `clear_symbol_cache` unconditionally drops all cached
parsed-context entries; the library list is built once, lazily, from
the loader enumeration when the global cache is first used, and neither
`resolve` nor `clear_symbol_cache` ever rebuilds or changes it. -/
theorem clear_symbol_cache_spec :
    (∀ (env : Env) (s : Option Cache),
      clear_symbol_cache env s =
        some { libraries := (s.getD (Cache.new env)).libraries,
               mappings := [] }) ∧
    (∀ env : Env, (Cache.new env).libraries = env.native_libraries) ∧
    (∀ (env : Env) (s : Option Cache) (addr : Nat),
      ((resolve env s addr).2).map Cache.libraries =
        some (s.getD (Cache.new env)).libraries) := by
  refine ⟨fun env s => rfl, fun env => rfl, ?_⟩
  intro env s addr
  rw [resolve_snd]
  simp only [Option.map_some']
  rw [resolveWith_libraries]

/-- Counterexample to C9 as stated: `cacheStale` was built before
`libLow` was loaded; the loader now reports `[libW, libLow]`. If
`clear_symbol_cache` rebuilt the library list, the cleared cache would
hold the fresh enumeration; instead it keeps the stale one (while it
does drop all mapping entries). -/
theorem clear_symbol_cache_counterexample :
    (clear_symbol_cache envTwoLibs (some cacheStale)).map Cache.libraries ≠
      some envTwoLibs.native_libraries ∧
    clear_symbol_cache envTwoLibs (some cacheStale) =
      some { libraries := cacheStale.libraries, mappings := [] } := by
  refine ⟨?_, rfl⟩
  decide

/-! ## C5: reentrant use of the global lock -/

/-- C5 (amended: a nested call does not return early): when the calling
thread already holds the global serialization lock, `lock()` returns
`none` without touching the flag — so there is no deadlock and no
second acquisition — but `trace` binds that result to an unused guard
and proceeds to walk the stack unsynchronized, invoking its callback
once per walked frame exactly as a non-nested call would, rather than
returning with zero frames. -/
theorem trace_reentrant_behaviour :
    ((lock { lockHeld := true }).1 = none ∧
     (lock { lockHeld := true }).2 = { lockHeld := true }) ∧
    (∀ (frames : List Nat) (cb : Nat → Bool),
      trace { lockHeld := true } frames cb =
        (trace_unsynchronized frames cb, { lockHeld := true })) ∧
    (∀ (s : LockState) (frames : List Nat) (cb : Nat → Bool),
      (trace s frames cb).1 = trace_unsynchronized frames cb) := by
  refine ⟨⟨rfl, rfl⟩, fun frames cb => rfl, ?_⟩
  intro s frames cb
  cases s with
  | mk held => cases held <;> rfl

/-- Counterexample to C5 as stated: with the lock already held on this
thread, tracing one frame still invokes the callback once — the nested
call does not return with zero frames. -/
theorem trace_reentrant_counterexample :
    (trace { lockHeld := true } [7] fun _ => true).1 = [7] ∧
    ¬((trace { lockHeld := true } [7] fun _ => true).1 = []) ∧
    (lock { lockHeld := true }).1 = none :=
  ⟨rfl, by decide, rfl⟩

end BacktraceRs

namespace BacktraceRs

/-! ## Binary-search lemmas -/

theorem binarySearchLoop_spec (keys : List Nat) (target : Nat)
    (hsorted : ∀ i j, i < j → j < keys.length →
      keys.getD i 0 ≤ keys.getD j 0) :
    ∀ (fuel left right : Nat), right - left ≤ fuel →
      left ≤ right → right ≤ keys.length →
      (∀ j, j < left → keys.getD j 0 < target) →
      (∀ j, right ≤ j → j < keys.length → target < keys.getD j 0) →
      (∀ i, binarySearchLoop keys target left right = .ok i →
        i < keys.length ∧ keys.getD i 0 = target) ∧
      (∀ i, binarySearchLoop keys target left right = .error i →
        left ≤ i ∧ i ≤ right ∧
        (∀ j, j < i → keys.getD j 0 < target) ∧
        (∀ j, i ≤ j → j < keys.length → target < keys.getD j 0)) := by
  intro fuel
  induction fuel with
  | zero =>
    intro left right hfuel hlr hrlen hl hr
    have hcase : ¬ left < right := by omega
    rw [binarySearchLoop, dif_neg hcase]
    constructor
    · intro i hi
      exact absurd hi (by simp)
    · intro i hi
      injection hi with hli
      subst hli
      exact ⟨le_refl _, hlr, hl, fun j hj hjlen => hr j (by omega) hjlen⟩
  | succ fuel ih =>
    intro left right hfuel hlr hrlen hl hr
    by_cases hcase : left < right
    · rw [binarySearchLoop, dif_pos hcase]
      simp only []
      have hmidlt : left + (right - left) / 2 < right := by omega
      by_cases hk1 : keys.getD (left + (right - left) / 2) 0 < target
      · rw [if_pos hk1]
        have hl2 : ∀ j, j < left + (right - left) / 2 + 1 →
            keys.getD j 0 < target := by
          intro j hj
          by_cases hjm : j = left + (right - left) / 2
          · rw [hjm]; exact hk1
          · by_cases hjl : j < left
            · exact hl j hjl
            · exact lt_of_le_of_lt
                (hsorted j (left + (right - left) / 2) (by omega) (by omega))
                hk1
        obtain ⟨hok, herr⟩ := ih (left + (right - left) / 2 + 1) right
          (by omega) (by omega) hrlen hl2 hr
        refine ⟨hok, ?_⟩
        intro i hi
        obtain ⟨h1, h2, h3, h4⟩ := herr i hi
        exact ⟨by omega, h2, h3, h4⟩
      · rw [if_neg hk1]
        by_cases hk2 : target < keys.getD (left + (right - left) / 2) 0
        · rw [if_pos hk2]
          have hr2 : ∀ j, left + (right - left) / 2 ≤ j →
              j < keys.length → target < keys.getD j 0 := by
            intro j hj hjlen
            by_cases hjm : j = left + (right - left) / 2
            · rw [hjm]; exact hk2
            · by_cases hjr : right ≤ j
              · exact hr j hjr hjlen
              · exact lt_of_lt_of_le hk2
                  (hsorted (left + (right - left) / 2) j (by omega) hjlen)
          obtain ⟨hok, herr⟩ := ih left (left + (right - left) / 2)
            (by omega) (by omega) (by omega) hl hr2
          refine ⟨hok, ?_⟩
          intro i hi
          obtain ⟨h1, h2, h3, h4⟩ := herr i hi
          exact ⟨h1, by omega, h3, h4⟩
        · rw [if_neg hk2]
          constructor
          · intro i hi
            injection hi with hmi
            subst hmi
            exact ⟨by omega, by omega⟩
          · intro i hi
            exact absurd hi (by simp)
    · rw [binarySearchLoop, dif_neg hcase]
      constructor
      · intro i hi
        exact absurd hi (by simp)
      · intro i hi
        injection hi with hli
        subst hli
        exact ⟨le_refl _, hlr, hl, fun j hj hjlen => hr j (by omega) hjlen⟩

theorem binarySearchByKey_spec (keys : List Nat) (target : Nat)
    (hsorted : ∀ i j, i < j → j < keys.length →
      keys.getD i 0 ≤ keys.getD j 0) :
    (∀ i, binarySearchByKey keys target = .ok i →
      i < keys.length ∧ keys.getD i 0 = target) ∧
    (∀ i, binarySearchByKey keys target = .error i →
      i ≤ keys.length ∧
      (∀ j, j < i → keys.getD j 0 < target) ∧
      (∀ j, i ≤ j → j < keys.length → target < keys.getD j 0)) := by
  obtain ⟨hok, herr⟩ := binarySearchLoop_spec keys target hsorted
    keys.length 0 keys.length (by omega) (by omega) (le_refl _)
    (by intro j hj; omega) (by intro j hj hjlen; omega)
  refine ⟨hok, ?_⟩
  intro i hi
  obtain ⟨_, hir, hlt, hgt⟩ := herr i hi
  exact ⟨hir, hlt, hgt⟩

theorem sorted_getD {keys : List Nat} (h : keys.Pairwise (· ≤ ·)) :
    ∀ i j, i < j → j < keys.length → keys.getD i 0 ≤ keys.getD j 0 := by
  intro i j hij hj
  have hi : i < keys.length := lt_trans hij hj
  rw [List.getD_eq_getElem keys 0 hi, List.getD_eq_getElem keys 0 hj]
  exact List.pairwise_iff_getElem.mp h i j hi hj hij

theorem precedingIndex_spec (keys : List Nat) (target : Nat)
    (hsorted : ∀ i j, i < j → j < keys.length →
      keys.getD i 0 ≤ keys.getD j 0) :
    (∀ i, precedingIndex keys target = some i →
      i < keys.length ∧ keys.getD i 0 ≤ target ∧
      (∀ j, j < keys.length → keys.getD j 0 ≤ target →
        keys.getD j 0 ≤ keys.getD i 0)) ∧
    (precedingIndex keys target = none →
      ∀ j, j < keys.length → target < keys.getD j 0) := by
  obtain ⟨hok, herr⟩ := binarySearchByKey_spec keys target hsorted
  constructor
  · intro i hi
    cases hb : binarySearchByKey keys target with
    | ok i2 =>
      have hi2 : i2 = i := by
        rw [precedingIndex, hb] at hi
        exact Option.some_inj.mp hi
      subst hi2
      obtain ⟨hlen, heq⟩ := hok i2 hb
      refine ⟨hlen, le_of_eq heq, ?_⟩
      intro j _ hjle
      rw [heq]
      exact hjle
    | error i2 =>
      cases i2 with
      | zero =>
        rw [precedingIndex, hb] at hi
        exact absurd hi (by simp)
      | succ i3 =>
        have hi3 : i3 = i := by
          rw [precedingIndex, hb] at hi
          exact Option.some_inj.mp hi
        subst hi3
        obtain ⟨hlelen, hlt, hgt⟩ := herr (i3 + 1) hb
        refine ⟨by omega, le_of_lt (hlt i3 (by omega)), ?_⟩
        intro j hj hjle
        by_cases hjc : j < i3 + 1
        · by_cases hji : j = i3
          · rw [hji]
          · exact hsorted j i3 (by omega) (by omega)
        · exact absurd hjle (not_le.mpr (hgt j (by omega) hj))
  · intro hnone j hj
    cases hb : binarySearchByKey keys target with
    | ok i2 =>
      rw [precedingIndex, hb] at hnone
      exact absurd hnone (by simp)
    | error i2 =>
      cases i2 with
      | zero =>
        obtain ⟨_, _, hgt⟩ := herr 0 hb
        exact hgt j (Nat.zero_le j) hj
      | succ i3 =>
        rw [precedingIndex, hb] at hnone
        exact absurd hnone (by simp)

theorem getD_map_key {α : Type} (xs : List α) (key : α → Nat) (i : Nat)
    (h : i < xs.length) :
    (xs.map key).getD i 0 = key xs[i] := by
  rw [List.getD_eq_getElem _ 0 (by rw [List.length_map]; exact h)]
  rw [List.getElem_map]

theorem search_core {α : Type} (xs : List α) (key : α → Nat) (target : Nat)
    (hsorted : (xs.map key).Pairwise (· ≤ ·))
    (hex : ∃ x ∈ xs, key x ≤ target) :
    ∃ (i : Nat) (x : α), precedingIndex (xs.map key) target = some i ∧
      xs.get? i = some x ∧ x ∈ xs ∧ key x ≤ target ∧
      (∀ y ∈ xs, key y ≤ target → key y ≤ key x) := by
  have hs := sorted_getD hsorted
  obtain ⟨hsome, hnone⟩ := precedingIndex_spec (xs.map key) target hs
  cases hp : precedingIndex (xs.map key) target with
  | none =>
    exfalso
    obtain ⟨x, hx, hxle⟩ := hex
    obtain ⟨j, hj, hxj⟩ := List.mem_iff_getElem.mp hx
    have hgt := hnone hp j (by rw [List.length_map]; exact hj)
    rw [getD_map_key xs key j hj, hxj] at hgt
    omega
  | some i =>
    obtain ⟨hilen, hile, hmax⟩ := hsome i hp
    have hilen2 : i < xs.length := by
      rw [List.length_map] at hilen
      exact hilen
    rw [getD_map_key xs key i hilen2] at hile
    refine ⟨i, xs[i], rfl, ?_, List.getElem_mem hilen2, hile, ?_⟩
    · rw [List.get?_eq_getElem?, List.getElem?_eq_getElem hilen2]
    · intro y hy hyle
      obtain ⟨j, hj, hyj⟩ := List.mem_iff_getElem.mp hy
      have := hmax j (by rw [List.length_map]; exact hj)
        (by rw [getD_map_key xs key j hj, hyj]; exact hyle)
      rw [getD_map_key xs key j hj, hyj, getD_map_key xs key i hilen2] at this
      exact this

theorem precedingIndex_none_of_below {α : Type} (xs : List α)
    (key : α → Nat) (target : Nat)
    (hsorted : (xs.map key).Pairwise (· ≤ ·))
    (hbelow : ∀ x ∈ xs, target < key x) :
    precedingIndex (xs.map key) target = none := by
  cases hp : precedingIndex (xs.map key) target with
  | none => rfl
  | some i =>
    obtain ⟨hsome, _⟩ :=
      precedingIndex_spec (xs.map key) target (sorted_getD hsorted)
    obtain ⟨hilen, hile, _⟩ := hsome i hp
    have hilen2 : i < xs.length := by
      rw [List.length_map] at hilen
      exact hilen
    rw [getD_map_key xs key i hilen2] at hile
    have := hbelow xs[i] (List.getElem_mem hilen2)
    omega

end BacktraceRs

namespace BacktraceRs

/-! ## C7: search_symtab returns the nearest-preceding symbol -/

/-- C7: over the address-sorted symbol table, `search_symtab` selects
the nearest-preceding symbol (the one whose address is the largest
address not exceeding the query). On ELF the name is resolved exactly
when the query lies within the recorded `[address, address + size]`
range of that symbol; on PE/COFF and Mach-O the closest preceding
symbol is used regardless of distance (no per-symbol size exists). -/
theorem search_symtab_nearest_preceding :
    (∀ (o : ElfObject) (addr : Nat),
      (o.syms.map ParsedSym.address).Pairwise (· ≤ ·) →
      (∃ s ∈ o.syms, s.address ≤ addr) →
      ∃ sym ∈ o.syms, sym.address ≤ addr ∧
        (∀ s ∈ o.syms, s.address ≤ addr → s.address ≤ sym.address) ∧
        o.search_symtab addr =
          (if addr ≤ sym.address + sym.size then o.strings sym.name
           else none)) ∧
    (∀ (o : PeObject) (addr : Nat),
      (o.symbols.map Prod.fst).Pairwise (· ≤ ·) →
      (∃ p ∈ o.symbols, p.1 ≤ addr) →
      ∃ p ∈ o.symbols, p.1 ≤ addr ∧
        (∀ q ∈ o.symbols, q.1 ≤ addr → q.1 ≤ p.1) ∧
        o.search_symtab addr = o.symName p.2) ∧
    (∀ (o : MachOObject) (addr : Nat),
      (o.syms.map Prod.snd).Pairwise (· ≤ ·) →
      (∃ p ∈ o.syms, p.2 ≤ addr) →
      ∃ p ∈ o.syms, p.2 ≤ addr ∧
        (∀ q ∈ o.syms, q.2 ≤ addr → q.2 ≤ p.2) ∧
        o.search_symtab addr = some p.1) := by
  refine ⟨?_, ?_, ?_⟩
  · intro o addr hsorted hex
    obtain ⟨i, sym, hp, hget, hmem, hle, hmax⟩ :=
      search_core o.syms ParsedSym.address addr hsorted hex
    refine ⟨sym, hmem, hle, hmax, ?_⟩
    simp only [ElfObject.search_symtab, hp, Option.some_bind, hget]
    by_cases hin : addr ≤ sym.address + sym.size
    · rw [if_pos ⟨hle, hin⟩, if_pos hin]
    · rw [if_neg (fun hc => hin hc.2), if_neg hin]
  · intro o addr hsorted hex
    obtain ⟨i, p, hp, hget, hmem, hle, hmax⟩ :=
      search_core o.symbols Prod.fst addr hsorted hex
    refine ⟨p, hmem, hle, hmax, ?_⟩
    simp only [PeObject.search_symtab, hp, Option.some_bind, hget]
  · intro o addr hsorted hex
    obtain ⟨i, p, hp, hget, hmem, hle, hmax⟩ :=
      search_core o.syms Prod.snd addr hsorted hex
    refine ⟨p, hmem, hle, hmax, ?_⟩
    simp only [MachOObject.search_symtab, hp, Option.some_bind, hget,
      Option.map_some']

/-- Witness for C7: with symbols at addresses 10 and 20, querying 12
selects the symbol at 10 on all three format paths (in range for the
ELF size gate). -/
theorem search_symtab_nearest_preceding_witness :
    (∃ sym ∈ oElfW.syms, sym.address ≤ 12 ∧
      (∀ s ∈ oElfW.syms, s.address ≤ 12 → s.address ≤ sym.address) ∧
      oElfW.search_symtab 12 =
        (if 12 ≤ sym.address + sym.size then oElfW.strings sym.name
         else none)) ∧
    (∃ p ∈ oPeW.symbols, p.1 ≤ 12 ∧
      (∀ q ∈ oPeW.symbols, q.1 ≤ 12 → q.1 ≤ p.1) ∧
      oPeW.search_symtab 12 = oPeW.symName p.2) ∧
    (∃ p ∈ oMachW.syms, p.2 ≤ 12 ∧
      (∀ q ∈ oMachW.syms, q.2 ≤ 12 → q.2 ≤ p.2) ∧
      oMachW.search_symtab 12 = some p.1) :=
  ⟨search_symtab_nearest_preceding.1 oElfW 12 (by decide) (by decide),
   search_symtab_nearest_preceding.2.1 oPeW 12 (by decide) (by decide),
   search_symtab_nearest_preceding.2.2 oMachW 12 (by decide) (by decide)⟩

/-! ## C10: addresses below the whole table yield nothing -/

/-- C10: for an address strictly below every entry of the sorted symbol
table — which for a sorted table is exactly an address below the first
(lowest-addressed) entry, and holds vacuously for an empty table —
`search_symtab` returns `none` on all three format paths: the binary
search ends with insertion point 0 and the `checked_sub` guard turns
that into `None` with no underflow or out-of-bounds access. -/
theorem search_symtab_below_first :
    (∀ (o : ElfObject) (addr : Nat),
      (o.syms.map ParsedSym.address).Pairwise (· ≤ ·) →
      (∀ s ∈ o.syms, addr < s.address) →
      o.search_symtab addr = none) ∧
    (∀ (o : PeObject) (addr : Nat),
      (o.symbols.map Prod.fst).Pairwise (· ≤ ·) →
      (∀ p ∈ o.symbols, addr < p.1) →
      o.search_symtab addr = none) ∧
    (∀ (o : MachOObject) (addr : Nat),
      (o.syms.map Prod.snd).Pairwise (· ≤ ·) →
      (∀ p ∈ o.syms, addr < p.2) →
      o.search_symtab addr = none) := by
  refine ⟨?_, ?_, ?_⟩
  · intro o addr hsorted hbelow
    rw [ElfObject.search_symtab,
      precedingIndex_none_of_below o.syms ParsedSym.address addr hsorted
        hbelow,
      Option.none_bind]
  · intro o addr hsorted hbelow
    rw [PeObject.search_symtab,
      precedingIndex_none_of_below o.symbols Prod.fst addr hsorted hbelow,
      Option.none_bind]
  · intro o addr hsorted hbelow
    rw [MachOObject.search_symtab,
      precedingIndex_none_of_below o.syms Prod.snd addr hsorted hbelow,
      Option.none_bind]

/-- Witness for C10: address 5 lies below the first table entry (at 10)
of each fixture object, and every search returns `none`. -/
theorem search_symtab_below_first_witness :
    oElfW.search_symtab 5 = none ∧ oPeW.search_symtab 5 = none ∧
    oMachW.search_symtab 5 = none :=
  ⟨search_symtab_below_first.1 oElfW 5 (by decide) (by decide),
   search_symtab_below_first.2.1 oPeW 5 (by decide) (by decide),
   search_symtab_below_first.2.2 oMachW 5 (by decide) (by decide)⟩

end BacktraceRs
